import Mathlib

/-!
Verification of the data-cleaning engine in `src/app.py` (a pandas/streamlit
application).  The Python source is shallowly embedded: a pandas DataFrame
becomes the `Df` structure (column names plus a list of rows), pandas cells
become the `Cell` type (`num` for numeric values — pandas numeric dtypes are
modelled by `ℚ` —, `str` for text, `missing` for NaN/None), and each pandas
operation the app uses is translated to an executable Lean function.  The
claims about the app are then proved or refuted against these definitions.
-/

namespace DataCleaning

/-- A cell of a table: a numeric value, a text value, or the missing marker
(pandas NaN/None).  Pandas floating point values are modelled by `ℚ`. -/
inductive Cell where
  | num (q : ℚ)
  | str (s : String)
  | missing
deriving DecidableEq

/-- A table row: one cell per column, in column order. -/
abbrev Row := List Cell

section Duplicates

variable {α : Type} [DecidableEq α]

/-- Helper for `duplicated`: `seen` lists the elements occurring before the
current position; a position is marked `true` exactly when its element
already occurred. -/
def dupMaskAux (seen : List α) : List α → List Bool
  | [] => []
  | x :: xs => decide (x ∈ seen) :: dupMaskAux (x :: seen) xs

/-- Model of `df.duplicated()` (default `keep='first'`, `src/app.py:35`):
one Boolean per row, `true` exactly when an identical row occurs earlier. -/
def duplicated (l : List α) : List Bool := dupMaskAux [] l

/-- Model of `df.duplicated().sum()` (`src/app.py:35`): summing a Boolean
mask counts its `True` entries. -/
def dupCount (l : List α) : ℕ := (duplicated l).count true

/-- Helper for `drop_duplicates`: keep the elements that did not occur
before (`seen` again lists the elements before the current position). -/
def dropDupAux (seen : List α) : List α → List α
  | [] => []
  | x :: xs =>
    if x ∈ seen then dropDupAux (x :: seen) xs else x :: dropDupAux (x :: seen) xs

/-- Model of `df.drop_duplicates()` (`src/app.py:67`, `src/app.py:132`): keep
the first occurrence of each distinct row, drop the later ones, preserving
order.  The subsequent `reset_index(drop=True)` is implicit: positions in a
Lean list are always contiguous. -/
def drop_duplicates (l : List α) : List α := dropDupAux [] l

end Duplicates

/-- Model of `pandas.api.types.is_numeric_dtype(df[col])` (used at
`src/app.py:105` and `src/app.py:153`), with the dtype derived from the
values: a column is numeric when no cell holds text.  An all-missing column
read from a file is float64, hence numeric. -/
def is_numeric_dtype (cells : List Cell) : Bool :=
  cells.all fun c =>
    match c with
    | Cell.str _ => false
    | _ => true

/-- Model of `Series.fillna(v)`: every missing cell is replaced by `v`, other
cells are untouched.  Pandas also accepts `v = NaN`, in which case the call
leaves the column unchanged (NaN is "replaced" by NaN); the model reproduces
that by substituting `Cell.missing` for itself. -/
def fillna (cells : List Cell) (v : Cell) : List Cell :=
  cells.map fun c => if c = Cell.missing then v else c

/-- The numeric values of the non-missing cells of a column, in row order
(what pandas aggregations such as `mean`/`median` operate on, since they skip
NaN by default). -/
def numsOf (cells : List Cell) : List ℚ :=
  cells.filterMap fun c =>
    match c with
    | Cell.num q => some q
    | _ => none

/-- Model of `Series.mean()` at `src/app.py:156` on a numeric column: the
arithmetic mean of the non-missing values; when there is no non-missing value
pandas returns NaN (it does not raise), modelled as `Cell.missing`. -/
def meanOf (cells : List Cell) : Cell :=
  match numsOf cells with
  | [] => Cell.missing
  | _ :: _ => Cell.num ((numsOf cells).sum / ((numsOf cells).length : ℚ))

/-- Model of `Series.median()` at `src/app.py:161` on a numeric column: sort
the non-missing values; take the middle one (odd count) or the mean of the
two middle ones (even count); with no non-missing value pandas returns NaN
(it does not raise), modelled as `Cell.missing`. -/
def medianOf (cells : List Cell) : Cell :=
  let ns := List.insertionSort (· ≤ ·) (numsOf cells)
  match ns with
  | [] => Cell.missing
  | _ :: _ =>
    if ns.length % 2 = 1 then Cell.num (ns.getD (ns.length / 2) 0)
    else Cell.num ((ns.getD (ns.length / 2 - 1) 0 + ns.getD (ns.length / 2) 0) / 2)

/-- Digits of a decimal literal to a natural number (`none` when the
character list contains a non-digit). -/
def parseDigits (cs : List Char) : Option ℕ :=
  if cs.all Char.isDigit then
    some (cs.foldl (fun n c => 10 * n + (c.toNat - 48)) 0)
  else none

/-- Model of Python `float(param)` (at `src/app.py:169`) on plain decimal
literals: optional sign, an integer part and an optional fractional part.
Inputs outside this shape (the app's "invalid numeric text") yield `none`,
which the caller turns into the documented fallback. -/
def parseFloat? (s : String) : Option ℚ :=
  let cs := s.toList
  let signed : ℚ × List Char :=
    match cs with
    | '-' :: rest => (-1, rest)
    | '+' :: rest => (1, rest)
    | _ => (1, cs)
  match (signed.2.splitOn '.') with
  | [ip] =>
    match parseDigits ip with
    | some n => if ip.isEmpty then none else some (signed.1 * n)
    | none => none
  | [ip, fp] =>
    if ip.isEmpty && fp.isEmpty then none
    else
      match parseDigits ip, parseDigits fp with
      | some n, some f => some (signed.1 * ((n : ℚ) + (f : ℚ) / (10 : ℚ) ^ fp.length))
      | _, _ => none
  | _ => none

/-- Model of the `numeric_constant` fill value (`src/app.py:166`-`171`):
`float(param) if param != "" else 0.0`, with any parse failure swallowed
into `0.0`. -/
def numericConstVal (param : String) : ℚ :=
  if param = "" then 0 else (parseFloat? param).getD 0

/-- A total comparison on cell values, modelling how pandas orders the values
of one column (numbers by `≤`, text lexicographically; the cross-kind cases
never occur inside a homogeneous pandas column and are fixed arbitrarily so
that the relation is total). -/
def cellLe : Cell → Cell → Bool
  | Cell.missing, _ => true
  | Cell.num _, Cell.missing => false
  | Cell.num a, Cell.num b => decide (a ≤ b)
  | Cell.num _, Cell.str _ => true
  | Cell.str _, Cell.missing => false
  | Cell.str _, Cell.num _ => false
  | Cell.str a, Cell.str b => decide (a ≤ b)

/-- `cellLe` as a relation, for the sorting lemmas. -/
def cellLeP (a b : Cell) : Prop := cellLe a b = true

instance : DecidableRel cellLeP := fun a b => instDecidableEqBool (cellLe a b) true

/-- The number of occurrences of a value in a column. -/
def countCell (cells : List Cell) (v : Cell) : ℕ := cells.count v

/-- The non-missing cells of a column, in row order (`Series.dropna()`). -/
def nonMissing (cells : List Cell) : List Cell :=
  cells.filter fun c => c != Cell.missing

/-- The largest number of occurrences of any single non-missing value. -/
def maxModeCount (cells : List Cell) : ℕ :=
  ((nonMissing cells).map (countCell (nonMissing cells))).foldr max 0

/-- Model of `Series.mode()` at `src/app.py:176`: the distinct non-missing
values attaining the maximal occurrence count, in ascending order (pandas
returns the modes sorted). -/
def pandas_mode (cells : List Cell) : List Cell :=
  List.insertionSort cellLeP
    (drop_duplicates ((nonMissing cells).filter
        (fun v => countCell (nonMissing cells) v == maxModeCount cells)))

/-- Model of the `mode` fill value (`src/app.py:174`-`179`):
`m.iloc[0] if not m.empty else ""`. -/
def mode_fill (cells : List Cell) : Cell :=
  match pandas_mode cells with
  | [] => Cell.str ""
  | v :: _ => v

/-- Model of `Series.fillna(method='ffill')` (`src/app.py:183`): each missing
cell takes the nearest preceding non-missing value; `last` is the value
carried in from before the list (initially none, modelled as the missing
marker, so leading missing cells stay missing). -/
def ffillAux (last : Cell) : List Cell → List Cell
  | [] => []
  | c :: cs => if c = Cell.missing then last :: ffillAux last cs else c :: ffillAux c cs

/-- Forward fill of a whole column. -/
def ffillCells (cells : List Cell) : List Cell := ffillAux Cell.missing cells

/-- Model of `Series.fillna(method='bfill')` (`src/app.py:183`): mirror image
of forward fill, taking the nearest following non-missing value. -/
def bfillCells (cells : List Cell) : List Cell := (ffillAux Cell.missing cells.reverse).reverse

/-- The strategy kinds the UI can produce (`src/app.py:106`-`118`). -/
inductive StratKind where
  | mean | median | numeric_constant | mode | ffill | bfill | cat_constant
deriving DecidableEq

/-- Model of one iteration of the imputation loop body
(`src/app.py:152`-`191`) on the cells of one column: the new cells and
whether a strategy branch was applied.  `mean`/`median` are guarded by
`is_numeric_dtype`; a guard failure falls through every `elif` into the
`else` branch, i.e. the column is left unchanged and not applied.  All other
kinds are applied unconditionally.  The `param` argument models the Python
`param` with `""` standing for `None` (only the two constant kinds read it). -/
def applyStrategy (cells : List Cell) (kind : StratKind) (param : String) :
    List Cell × Bool :=
  match kind with
  | StratKind.mean =>
    if is_numeric_dtype cells then (fillna cells (meanOf cells), true) else (cells, false)
  | StratKind.median =>
    if is_numeric_dtype cells then (fillna cells (medianOf cells), true) else (cells, false)
  | StratKind.numeric_constant => (fillna cells (Cell.num (numericConstVal param)), true)
  | StratKind.mode => (fillna cells (mode_fill cells), true)
  | StratKind.ffill => (ffillCells cells, true)
  | StratKind.bfill => (bfillCells cells, true)
  | StratKind.cat_constant =>
    (fillna cells (Cell.str (if param = "" then "Unknown" else param)), true)

/-- A table: a pandas DataFrame with labelled columns, stored as the list of
column names plus the list of rows. -/
structure Df where
  names : List String
  rows : List Row
deriving DecidableEq

/-- The cells of column `j`, top to bottom (out-of-range positions — which a
well-formed table does not have — read as missing). -/
def getCol (df : Df) (j : ℕ) : List Cell :=
  df.rows.map fun r => r.getD j Cell.missing

/-- Model of `df.isnull().sum()` for column `j` (`src/app.py:33`): the
number of missing cells of the column. -/
def missingCount (df : Df) (j : ℕ) : ℕ :=
  (getCol df j).count Cell.missing

/-- Rounding to two decimal places (`.round(2)` at `src/app.py:34`). -/
def round2 (q : ℚ) : ℚ := ((round (q * 100) : ℤ) : ℚ) / 100

/-- Model of the missing percentage of column `j` in `summary_stats`
(`(miss / len(df) * 100).round(2)`, `src/app.py:34`).  On an empty table the
float division is `0 / 0`, which yields NaN — pandas raises no exception and
renders the NaN as its N/A marker — modelled by `none`. -/
def missing_pct (df : Df) (j : ℕ) : Option ℚ :=
  if df.rows.length = 0 then none
  else some (round2 ((missingCount df j : ℚ) / (df.rows.length : ℚ) * 100))

/-- Model of the duplicate-count entry of `summary_stats`
(`dup = df.duplicated().sum()`, `src/app.py:35`). -/
def summary_dup (df : Df) : ℕ := dupCount df.rows

/-- The spec's notion of the duplicate count, written from the spec's words
for comparison with `summary_dup`: the number of rows that are
value-identical to at least one other row, counting every member of each
duplicate group (keep-all semantics, what `df.duplicated(keep=False).sum()`
would compute). -/
def keepAllDupCount {α : Type} [DecidableEq α] (l : List α) : ℕ :=
  (l.filter fun x => decide (2 ≤ l.count x)).length

/-- Model of the "Remove duplicate rows" action (`src/app.py:130`-`134`):
the deduplicated, re-indexed table together with the reported count
`before - after`. -/
def removeDuplicateRows (df : Df) : Df × ℕ :=
  (⟨df.names, drop_duplicates df.rows⟩, df.rows.length - (drop_duplicates df.rows).length)

/-- Model of `df.dropna().reset_index(drop=True)` (`src/app.py:69`,
`src/app.py:144`): drop every row containing at least one missing cell. -/
def df_dropna (df : Df) : Df :=
  ⟨df.names, df.rows.filter fun r => r.all fun c => c != Cell.missing⟩

/-- One per-column entry of the `strategies` dict built by the UI
(`src/app.py:102`-`118`): column name, strategy kind, parameter (with `""`
standing for Python `None`). -/
abbrev SpecEntry := String × StratKind × String

/-- The skip notice issued by `st.warning` at `src/app.py:191`, naming the
skipped column. -/
def skipNotice (name : String) : String :=
  "Skipped " ++ name ++ ": incompatible strategy or dtype."

/-- `df[col]` for a column label (`none` when the label does not exist; the
app never reaches that case, because `strategies` is keyed by the table's
own columns). -/
def lookupCells (df : Df) (name : String) : Option (List Cell) :=
  if name ∈ df.names then some (getCol df (df.names.indexOf name)) else none

/-- Replace column `j`: row `i` receives `cells[i]` at position `j`. -/
def setColRows (rows : List Row) (j : ℕ) (cells : List Cell) : List Row :=
  List.zipWith (fun r c => r.set j c) rows cells

/-- The column assignment `df[col] = cells`. -/
def setCol (df : Df) (name : String) (cells : List Cell) : Df :=
  ⟨df.names, setColRows df.rows (df.names.indexOf name) cells⟩

/-- The running state of the imputation loop (`src/app.py:150`-`191`): the
working table (mutated in place by the column assignments), the `changed`
flag, and the skip notices issued so far via `st.warning`. -/
structure ImpState where
  df : Df
  changed : Bool
  notices : List String
deriving DecidableEq

/-- One iteration of `for col, (strategy, param) in strategies.items()`
(`src/app.py:152`-`191`): apply the strategy to the named column; an applying
branch assigns the column and sets `changed = True`; the `else` branch leaves
the table untouched and issues the skip notice. -/
def impStep (st : ImpState) (e : SpecEntry) : ImpState :=
  match lookupCells st.df e.1 with
  | none => st
  | some cells =>
    let res := applyStrategy cells e.2.1 e.2.2
    if res.2 then ⟨setCol st.df e.1 res.1, true, st.notices⟩
    else ⟨st.df, st.changed, st.notices ++ [skipNotice e.1]⟩

/-- Model of the whole imputation pass (`src/app.py:149`-`194`): fold the
loop body over the strategy entries, starting from `changed = False` and no
notices. -/
def df_apply_impute (df : Df) (specs : List SpecEntry) : ImpState :=
  specs.foldl impStep ⟨df, false, []⟩

/-- The session state: the snapshot `original_df` and the working copy `df`
(`reset_session_df`, `src/app.py:21`-`24`; `.copy()` is a value copy, so the
model stores the value twice). -/
structure Session where
  original : Df
  working : Df
deriving DecidableEq

/-- Model of `reset_session_df(df_in)` on the first load of a source
(`src/app.py:63`-`65`). -/
def initSession (df : Df) : Session := ⟨df, df⟩

/-- Model of the "Reset to original upload" action (`src/app.py:138`-`140`):
`reset_session_df(original_df)` replaces both stored tables by copies of the
original, so the working table becomes value-equal to the snapshot and the
snapshot itself is value-unchanged. -/
def resetSession (s : Session) : Session := ⟨s.original, s.original⟩

/-- The user actions that operate on the loaded session. -/
inductive CleanOp where
  | impute (specs : List SpecEntry)
  | removeDup
  | dropMissing
  | resetOp

/-- Run one user action on the session.  Every action reads and writes only
the working table `st.session_state["df"]`; `resetOp` copies the original
back over it. -/
def runOp (s : Session) : CleanOp → Session
  | CleanOp.impute specs => ⟨s.original, (df_apply_impute s.working specs).df⟩
  | CleanOp.removeDup => ⟨s.original, (removeDuplicateRows s.working).1⟩
  | CleanOp.dropMissing => ⟨s.original, df_dropna s.working⟩
  | CleanOp.resetOp => resetSession s

/-- Run a finite sequence of user actions. -/
def runOps (s : Session) (ops : List CleanOp) : Session := ops.foldl runOp s

/-- Model of the upload guard (`src/app.py:62`-`65`): the session is
(re-)initialized only when no session exists yet or the uploaded file has a
different name; re-uploading the same name leaves the session untouched. -/
def loadUpload (state : Option (String × Session)) (name : String) (df : Df) :
    String × Session :=
  match state with
  | none => (name, initSession df)
  | some (n, s) => if n = name then (n, s) else (name, initSession df)

/-! ### Lemmas about duplicate handling -/

section DupLemmas

variable {α : Type} [DecidableEq α]

theorem mem_dropDupAux (x : α) :
    ∀ (l seen : List α), x ∈ dropDupAux seen l ↔ x ∈ l ∧ x ∉ seen := by
  intro l
  induction l with
  | nil => intro seen; simp [dropDupAux]
  | cons y ys ih =>
    intro seen
    by_cases hy : y ∈ seen
    · simp only [dropDupAux, if_pos hy, ih, List.mem_cons]
      constructor
      · rintro ⟨hys, hns⟩
        simp only [List.mem_cons, not_or] at hns
        exact ⟨Or.inr hys, hns.2⟩
      · rintro ⟨hxy | hys, hns⟩
        · exact absurd (hxy ▸ hy) hns
        · refine ⟨hys, ?_⟩
          simp only [List.mem_cons, not_or]
          exact ⟨fun hxy => hns (hxy ▸ hy), hns⟩
    · simp only [dropDupAux, if_neg hy, List.mem_cons, ih]
      constructor
      · rintro (hxy | ⟨hys, hns⟩)
        · exact ⟨Or.inl hxy, hxy ▸ hy⟩
        · simp only [List.mem_cons, not_or] at hns
          exact ⟨Or.inr hys, hns.2⟩
      · rintro ⟨hxy | hys, hns⟩
        · exact Or.inl hxy
        · by_cases hxy : x = y
          · exact Or.inl hxy
          · refine Or.inr ⟨hys, ?_⟩
            simp only [List.mem_cons, not_or]
            exact ⟨hxy, hns⟩

theorem nodup_dropDupAux : ∀ (l seen : List α), (dropDupAux seen l).Nodup := by
  intro l
  induction l with
  | nil => intro seen; simp [dropDupAux]
  | cons y ys ih =>
    intro seen
    by_cases hy : y ∈ seen
    · simpa [dropDupAux, if_pos hy] using ih (y :: seen)
    · simp only [dropDupAux, if_neg hy, List.nodup_cons]
      refine ⟨fun hmem => ?_, ih (y :: seen)⟩
      exact ((mem_dropDupAux y ys (y :: seen)).1 hmem).2 (List.mem_cons_self y seen)

theorem sublist_dropDupAux : ∀ (l seen : List α), (dropDupAux seen l).Sublist l := by
  intro l
  induction l with
  | nil => intro seen; simp [dropDupAux]
  | cons y ys ih =>
    intro seen
    by_cases hy : y ∈ seen
    · simpa [dropDupAux, if_pos hy] using (ih (y :: seen)).cons y
    · simpa [dropDupAux, if_neg hy] using (ih (y :: seen)).cons₂ y

theorem dropDupAux_eq_self :
    ∀ (l seen : List α), l.Nodup → (∀ x ∈ l, x ∉ seen) → dropDupAux seen l = l := by
  intro l
  induction l with
  | nil => intro seen _ _; rfl
  | cons y ys ih =>
    intro seen hnd hns
    have hy : y ∉ seen := hns y (List.mem_cons_self y ys)
    simp only [List.nodup_cons] at hnd
    rw [dropDupAux, if_neg hy]
    congr 1
    refine ih (y :: seen) hnd.2 fun x hx => ?_
    simp only [List.mem_cons, not_or]
    exact ⟨fun hxy => hnd.1 (hxy ▸ hx), hns x (List.mem_cons_of_mem y hx)⟩

theorem drop_duplicates_idem (l : List α) :
    drop_duplicates (drop_duplicates l) = drop_duplicates l :=
  dropDupAux_eq_self _ [] (nodup_dropDupAux l []) (by simp)

theorem mem_drop_duplicates (x : α) (l : List α) :
    x ∈ drop_duplicates l ↔ x ∈ l := by
  simp [drop_duplicates, mem_dropDupAux]

theorem count_dupMaskAux_add_length :
    ∀ (l seen : List α),
      (dupMaskAux seen l).count true + (dropDupAux seen l).length = l.length := by
  intro l
  induction l with
  | nil => intro seen; rfl
  | cons y ys ih =>
    intro seen
    have h := ih (y :: seen)
    by_cases hy : y ∈ seen
    · simp [dupMaskAux, dropDupAux, hy, List.count_cons]
      omega
    · simp [dupMaskAux, dropDupAux, hy, List.count_cons]
      omega

theorem dropDupAux_eq_maskFilter :
    ∀ (l seen : List α),
      dropDupAux seen l =
        (l.zip (dupMaskAux seen l)).filterMap fun p => if p.2 then none else some p.1 := by
  intro l
  induction l with
  | nil => intro seen; rfl
  | cons y ys ih =>
    intro seen
    by_cases hy : y ∈ seen
    · simp [dupMaskAux, dropDupAux, if_pos hy, decide_eq_true hy, List.zip_cons_cons,
        List.filterMap_cons, ih (y :: seen)]
    · simp [dupMaskAux, dropDupAux, if_neg hy, decide_eq_false hy, List.zip_cons_cons,
        List.filterMap_cons, ih (y :: seen)]

theorem dupCount_eq_length_sub (l : List α) :
    dupCount l = l.length - (drop_duplicates l).length := by
  have h := count_dupMaskAux_add_length l []
  simp only [dupCount, duplicated, drop_duplicates]
  omega

end DupLemmas

/-! ### Lemmas about the cell ordering and `mode` -/

theorem cellLe_refl (a : Cell) : cellLe a a = true := by
  cases a <;> simp [cellLe]

theorem cellLe_trans {a b c : Cell} (h1 : cellLe a b = true) (h2 : cellLe b c = true) :
    cellLe a c = true := by
  cases a <;> cases b <;> cases c <;> simp_all [cellLe] <;> exact le_trans h1 h2

theorem cellLe_total (a b : Cell) : cellLe a b = true ∨ cellLe b a = true := by
  cases a <;> cases b <;> simp [cellLe] <;> exact le_total _ _

instance : IsTrans Cell cellLeP := ⟨fun _ _ _ => cellLe_trans⟩

instance : IsTotal Cell cellLeP := ⟨cellLe_total⟩

theorem foldr_max_mem : ∀ (l : List ℕ), l ≠ [] → l.foldr max 0 ∈ l := by
  intro l
  induction l with
  | nil => intro h; exact absurd rfl h
  | cons a t ih =>
    intro _
    cases t with
    | nil => simp
    | cons b u =>
      rcases le_total a ((b :: u).foldr max 0) with hle | hle
      · rw [List.foldr_cons, max_eq_right hle]
        exact List.mem_cons_of_mem a (ih (by simp))
      · rw [List.foldr_cons, max_eq_left hle]
        exact List.mem_cons_self a _

theorem maxModeCount_attained (cells : List Cell) (h : nonMissing cells ≠ []) :
    ∃ v ∈ nonMissing cells, countCell (nonMissing cells) v = maxModeCount cells := by
  have hmap : ((nonMissing cells).map (countCell (nonMissing cells))) ≠ [] := by
    simpa using h
  have hmem := foldr_max_mem _ hmap
  rw [List.mem_map] at hmem
  obtain ⟨v, hv, hfv⟩ := hmem
  exact ⟨v, hv, hfv⟩

theorem mem_pandas_mode (cells : List Cell) (v : Cell) :
    v ∈ pandas_mode cells ↔
      v ∈ nonMissing cells ∧ countCell (nonMissing cells) v = maxModeCount cells := by
  unfold pandas_mode
  rw [List.mem_insertionSort, mem_drop_duplicates, List.mem_filter]
  simp

theorem pandas_mode_ne_nil (cells : List Cell) (h : nonMissing cells ≠ []) :
    pandas_mode cells ≠ [] := by
  obtain ⟨v, hv, hc⟩ := maxModeCount_attained cells h
  intro hnil
  have hmem : v ∈ pandas_mode cells := (mem_pandas_mode cells v).2 ⟨hv, hc⟩
  rw [hnil] at hmem
  exact absurd hmem (List.not_mem_nil v)

theorem mode_fill_spec (cells : List Cell) (h : nonMissing cells ≠ []) :
    (mode_fill cells ∈ nonMissing cells ∧
      countCell (nonMissing cells) (mode_fill cells) = maxModeCount cells) ∧
    ∀ w ∈ nonMissing cells,
      countCell (nonMissing cells) w = maxModeCount cells →
        cellLe (mode_fill cells) w = true := by
  cases hpm : pandas_mode cells with
  | nil => exact absurd hpm (pandas_mode_ne_nil cells h)
  | cons v rest =>
    have hmode : mode_fill cells = v := by simp [mode_fill, hpm]
    have hsorted : (pandas_mode cells).Sorted cellLeP := List.sorted_insertionSort cellLeP _
    rw [hpm, List.sorted_cons] at hsorted
    constructor
    · rw [hmode]
      exact (mem_pandas_mode cells v).1 (by simp [hpm])
    · intro w hw hc
      have hwm : w ∈ pandas_mode cells := (mem_pandas_mode cells w).2 ⟨hw, hc⟩
      rw [hpm, List.mem_cons] at hwm
      rcases hwm with rfl | hwr
      · rw [hmode]; exact cellLe_refl w
      · rw [hmode]; exact hsorted.1 w hwr

/-! ### Length preservation of the column operations -/

theorem fillna_missing (cells : List Cell) : fillna cells Cell.missing = cells := by
  induction cells with
  | nil => rfl
  | cons c cs ih =>
    by_cases hc : c = Cell.missing <;> simp [fillna, hc] <;> simpa [fillna] using ih

theorem length_fillna (cells : List Cell) (v : Cell) :
    (fillna cells v).length = cells.length := by
  simp [fillna]

theorem length_ffillAux :
    ∀ (last : Cell) (cells : List Cell), (ffillAux last cells).length = cells.length := by
  intro last cells
  induction cells generalizing last with
  | nil => rfl
  | cons c cs ih => by_cases hc : c = Cell.missing <;> simp [ffillAux, hc, ih]

theorem length_applyStrategy (cells : List Cell) (kind : StratKind) (param : String) :
    (applyStrategy cells kind param).1.length = cells.length := by
  cases kind <;>
    simp [applyStrategy, length_fillna, ffillCells, bfillCells, length_ffillAux,
      apply_ite (fun p : List Cell × Bool => p.1.length)]

/-! ### Lemmas about the imputation pass -/

theorem names_impStep (st : ImpState) (e : SpecEntry) :
    (impStep st e).df.names = st.df.names := by
  unfold impStep
  cases lookupCells st.df e.1 with
  | none => rfl
  | some cells =>
    by_cases happ : (applyStrategy cells e.2.1 e.2.2).2 <;> simp [setCol, happ]

theorem getD_set_ne (r : Row) (j i : ℕ) (c : Cell) (hij : i ≠ j) :
    (r.set j c).getD i Cell.missing = r.getD i Cell.missing := by
  simp [List.getD_eq_getElem?_getD, List.getElem?_set_ne (Ne.symm hij)]

theorem map_getD_setColRows (j i : ℕ) (hij : i ≠ j) :
    ∀ (rows : List Row) (cells : List Cell), cells.length = rows.length →
      (setColRows rows j cells).map (fun r => r.getD i Cell.missing) =
        rows.map (fun r => r.getD i Cell.missing) := by
  intro rows
  induction rows with
  | nil => intro cells _; rfl
  | cons r rs ih =>
    intro cells h
    cases cells with
    | nil => exact absurd h (by simp)
    | cons c cs =>
      simp only [setColRows, List.zipWith_cons_cons, List.map_cons] at *
      rw [getD_set_ne r j i c hij]
      congr 1
      exact ih cs (by simpa using h)

theorem getD_indexOf (names : List String) (n : String) (h : n ∈ names) :
    names.getD (names.indexOf n) "" = n := by
  have hlt : names.indexOf n < names.length := List.indexOf_lt_length.2 h
  rw [List.getD_eq_getElem?_getD, List.getElem?_eq_getElem hlt, List.getElem_indexOf hlt]
  rfl

theorem getCol_impStep (st : ImpState) (e : SpecEntry) (i : ℕ)
    (hne : st.df.names.getD i "" ≠ e.1) :
    getCol (impStep st e).df i = getCol st.df i := by
  unfold impStep
  cases hl : lookupCells st.df e.1 with
  | none => rfl
  | some cells =>
    have hmem : e.1 ∈ st.df.names := by
      by_cases hmem : e.1 ∈ st.df.names
      · exact hmem
      · rw [lookupCells, if_neg hmem] at hl
        exact absurd hl (by simp)
    have hcells : cells = getCol st.df (st.df.names.indexOf e.1) := by
      rw [lookupCells, if_pos hmem] at hl
      exact (Option.some.inj hl).symm
    have hij : i ≠ st.df.names.indexOf e.1 := by
      intro hcontr
      exact hne (by rw [hcontr, getD_indexOf st.df.names e.1 hmem])
    by_cases happ : (applyStrategy cells e.2.1 e.2.2).2
    · simp only [happ, if_true]
      show getCol (setCol st.df e.1 (applyStrategy cells e.2.1 e.2.2).1) i = getCol st.df i
      unfold setCol getCol
      apply map_getD_setColRows _ i hij
      rw [length_applyStrategy, hcells]
      simp [getCol]
    · simp [happ]

theorem names_foldl_impStep (specs : List SpecEntry) :
    ∀ (st : ImpState), (List.foldl impStep st specs).df.names = st.df.names := by
  induction specs with
  | nil => intro st; rfl
  | cons e rest ih => intro st; rw [List.foldl_cons, ih, names_impStep]

theorem getCol_foldl_impStep (specs : List SpecEntry) :
    ∀ (st : ImpState) (i : ℕ), (∀ e ∈ specs, st.df.names.getD i "" ≠ e.1) →
      getCol (List.foldl impStep st specs).df i = getCol st.df i := by
  induction specs with
  | nil => intro st i _; rfl
  | cons e rest ih =>
    intro st i hne
    rw [List.foldl_cons]
    have hnames := names_impStep st e
    rw [ih (impStep st e) i fun e' he' => by
      rw [hnames]; exact hne e' (List.mem_cons_of_mem e he')]
    exact getCol_impStep st e i (hne e (List.mem_cons_self e rest))

theorem impute_fold_count (specs : List SpecEntry) :
    ∀ (st : ImpState), (∀ e ∈ specs, e.1 ∈ st.df.names) →
      ∃ k m : ℕ,
        (List.foldl impStep st specs).notices.length = st.notices.length + m ∧
        m + k = specs.length ∧
        (List.foldl impStep st specs).changed = (st.changed || decide (0 < k)) := by
  induction specs with
  | nil =>
    intro st _
    exact ⟨0, 0, by simp⟩
  | cons e rest ih =>
    intro st hcols
    have hmem : e.1 ∈ st.df.names := hcols e (List.mem_cons_self e rest)
    have hlookup : lookupCells st.df e.1 =
        some (getCol st.df (st.df.names.indexOf e.1)) := by
      simp [lookupCells, hmem]
    rw [List.foldl_cons]
    have hrest : ∀ e' ∈ rest, e'.1 ∈ (impStep st e).df.names := fun e' he' => by
      rw [names_impStep]; exact hcols e' (List.mem_cons_of_mem e he')
    obtain ⟨k, m, h1, h2, h3⟩ := ih (impStep st e) hrest
    by_cases happ :
        (applyStrategy (getCol st.df (st.df.names.indexOf e.1)) e.2.1 e.2.2).2
    · have hstep : impStep st e =
          ⟨setCol st.df e.1
            (applyStrategy (getCol st.df (st.df.names.indexOf e.1)) e.2.1 e.2.2).1,
            true, st.notices⟩ := by
        simp [impStep, hlookup, happ]
      refine ⟨k + 1, m, ?_, by simpa using by omega, ?_⟩
      · rw [h1, hstep]
      · rw [h3, hstep]
        simp
    · have hstep : impStep st e =
          ⟨st.df, st.changed, st.notices ++ [skipNotice e.1]⟩ := by
        simp [impStep, hlookup, happ]
      refine ⟨k, m + 1, ?_, by simpa using by omega, ?_⟩
      · rw [h1, hstep]
        simp
        omega
      · rw [h3, hstep]

/-! ### Lemmas about the session -/

theorem original_runOp (s : Session) (op : CleanOp) : (runOp s op).original = s.original := by
  cases op <;> rfl

theorem original_runOps (ops : List CleanOp) :
    ∀ (s : Session), (runOps s ops).original = s.original := by
  induction ops with
  | nil => intro s; rfl
  | cons op rest ih =>
    intro s
    show (List.foldl runOp s (op :: rest)).original = s.original
    rw [List.foldl_cons]
    calc (List.foldl runOp (runOp s op) rest).original
        = (runOps (runOp s op) rest).original := rfl
      _ = (runOp s op).original := ih (runOp s op)
      _ = s.original := original_runOp s op

/-! ### Lemmas about the summary computation -/

theorem missingCount_le (df : Df) (j : ℕ) : missingCount df j ≤ df.rows.length := by
  unfold missingCount
  calc (getCol df j).count Cell.missing ≤ (getCol df j).length :=
        List.count_le_length _ _
    _ = df.rows.length := by simp [getCol]

theorem round2_bounds {q : ℚ} (h0 : 0 ≤ q) (h1 : q ≤ 100) :
    0 ≤ round2 q ∧ round2 q ≤ 100 := by
  unfold round2
  constructor
  · apply div_nonneg _ (by norm_num)
    have hq : (0 : ℤ) ≤ round (q * 100) := by
      rw [round_eq]
      apply Int.floor_nonneg.2
      nlinarith
    exact_mod_cast hq
  · rw [div_le_iff₀ (by norm_num : (0 : ℚ) < 100)]
    have hr : round (q * 100) ≤ 10000 := by
      rw [round_eq]
      have hle : (q * 100 + 1 / 2 : ℚ) ≤ 10000 + 1 / 2 := by linarith
      calc ⌊(q * 100 + 1 / 2 : ℚ)⌋ ≤ ⌊(10000 + 1 / 2 : ℚ)⌋ := Int.floor_le_floor hle
        _ = 10000 := by norm_num
    calc ((round (q * 100) : ℤ) : ℚ) ≤ ((10000 : ℤ) : ℚ) := by exact_mod_cast hr
      _ = 100 * 100 := by norm_num

/-! ### The claims -/

/-- C1, counterexample.  The claim says the duplicate count reported by
`summary_stats` uses keep-all semantics (every member of a duplicate group
counted).  On the table with two identical rows `[1]`, `[1]`, the code's
`df.duplicated().sum()` reports `1` (only the second occurrence), while the
keep-all count is `2` — the claim fails at this input. -/
theorem C1_counterexample :
    summary_dup ⟨["a"], [[Cell.num 1], [Cell.num 1]]⟩ = 1 ∧
    keepAllDupCount ((⟨["a"], [[Cell.num 1], [Cell.num 1]]⟩ : Df).rows) = 2 ∧
    summary_dup ⟨["a"], [[Cell.num 1], [Cell.num 1]]⟩ ≠
      keepAllDupCount ((⟨["a"], [[Cell.num 1], [Cell.num 1]]⟩ : Df).rows) :=
  ⟨by decide, by decide, by decide⟩

/-- C1, amended.  For every table, the duplicate-row count reported by
`summary_stats` equals the number of rows that duplicate an earlier row,
i.e. the total row count minus the number of distinct kept rows ("count − 1
per duplicate group"), not the keep-all count. -/
theorem C1_amended_dup_count (df : Df) :
    summary_dup df = df.rows.length - (drop_duplicates df.rows).length :=
  dupCount_eq_length_sub df.rows

/-- C2, counterexample.  The claim says a categorical-only kind (such as
`mode`) applied to a numeric column leaves the column unchanged with
`applied = false`.  In the code only `mean`/`median` are dtype-guarded: on
the numeric column `[1, 1, NaN]` the `mode` branch runs unconditionally,
fills the missing cell and reports applied — the claim fails at this
input. -/
theorem C2_counterexample :
    is_numeric_dtype [Cell.num 1, Cell.num 1, Cell.missing] = true ∧
    applyStrategy [Cell.num 1, Cell.num 1, Cell.missing] StratKind.mode "" =
      ([Cell.num 1, Cell.num 1, Cell.num 1], true) :=
  ⟨by decide, by decide⟩

/-- C2, amended.  Only `mean` and `median` check dtype compatibility: on a
non-numeric column they leave the column unchanged with `applied = false`,
the loop surfaces a skip notice naming the column, and the remaining entries
of the batch are still processed from that state (the other kinds —
`numeric_constant`, `mode`, `ffill`, `bfill`, `cat_constant` — are applied
regardless of the column's dtype, as the counterexample shows). -/
theorem C2_amended_mean_median_guard (df : Df) (name p : String)
    (rest : List SpecEntry) (cells : List Cell)
    (hlookup : lookupCells df name = some cells)
    (hmis : is_numeric_dtype cells = false) :
    applyStrategy cells StratKind.mean p = (cells, false) ∧
    applyStrategy cells StratKind.median p = (cells, false) ∧
    df_apply_impute df ((name, StratKind.mean, p) :: rest) =
      List.foldl impStep ⟨df, false, [skipNotice name]⟩ rest ∧
    skipNotice name = "Skipped " ++ name ++ ": incompatible strategy or dtype." := by
  refine ⟨by simp [applyStrategy, hmis], by simp [applyStrategy, hmis], ?_, rfl⟩
  unfold df_apply_impute
  rw [List.foldl_cons]
  congr 1
  simp [impStep, hlookup, applyStrategy, hmis]

/-- C2, witness: the amended theorem applied to a one-column text table. -/
theorem C2_witness :
    applyStrategy [Cell.str "x", Cell.missing] StratKind.mean "" =
      ([Cell.str "x", Cell.missing], false) ∧
    applyStrategy [Cell.str "x", Cell.missing] StratKind.median "" =
      ([Cell.str "x", Cell.missing], false) ∧
    df_apply_impute ⟨["c"], [[Cell.str "x"], [Cell.missing]]⟩
        [("c", StratKind.mean, "")] =
      List.foldl impStep
        ⟨⟨["c"], [[Cell.str "x"], [Cell.missing]]⟩, false, [skipNotice "c"]⟩ [] ∧
    skipNotice "c" = "Skipped " ++ "c" ++ ": incompatible strategy or dtype." :=
  C2_amended_mean_median_guard ⟨["c"], [[Cell.str "x"], [Cell.missing]]⟩ "c" "" []
    [Cell.str "x", Cell.missing] (by decide) (by decide)

/-- C3, counterexample.  The claim says `mean`/`median` on an all-missing
numeric column fill the cells with exactly `0`.  In the code
`Series.mean()`/`Series.median()` return NaN on an all-missing column
without raising, so the `except` fallback to `0` never fires and
`fillna(NaN)` leaves the column all-missing — the claim fails on the
one-cell all-missing column. -/
theorem C3_counterexample :
    applyStrategy [Cell.missing] StratKind.mean "" = ([Cell.missing], true) ∧
    applyStrategy [Cell.missing] StratKind.median "" = ([Cell.missing], true) ∧
    ([Cell.missing] : List Cell) ≠ [Cell.num 0] :=
  ⟨by decide, by decide, by decide⟩

/-- C3, amended.  On an all-missing numeric column, `mean` and `median`
compute a missing (NaN) fill value, so the fill is a no-op: the column stays
exactly as it was (still reported as applied), and no exception propagates
to the caller — the `0` fallback is reserved for an aggregate that raises,
which an all-missing column does not. -/
theorem C3_amended_all_missing_noop (cells : List Cell)
    (hall : ∀ c ∈ cells, c = Cell.missing) :
    applyStrategy cells StratKind.mean "" = (cells, true) ∧
    applyStrategy cells StratKind.median "" = (cells, true) := by
  have hnum : is_numeric_dtype cells = true := by
    unfold is_numeric_dtype
    rw [List.all_eq_true]
    intro c hc
    rw [hall c hc]
  have hnums : numsOf cells = [] := by
    unfold numsOf
    rw [List.filterMap_eq_nil_iff]
    intro c hc
    rw [hall c hc]
  have hmean : meanOf cells = Cell.missing := by
    unfold meanOf
    simp only [hnums]
  have hmedian : medianOf cells = Cell.missing := by
    unfold medianOf
    simp only [hnums, List.insertionSort]
  constructor
  · simp [applyStrategy, hnum, hmean, fillna_missing]
  · simp [applyStrategy, hnum, hmedian, fillna_missing]

/-- C3, witness: the amended theorem applied to a two-cell all-missing
column. -/
theorem C3_witness :
    applyStrategy [Cell.missing, Cell.missing] StratKind.mean "" =
      ([Cell.missing, Cell.missing], true) ∧
    applyStrategy [Cell.missing, Cell.missing] StratKind.median "" =
      ([Cell.missing, Cell.missing], true) :=
  C3_amended_all_missing_noop [Cell.missing, Cell.missing] (by decide)

/-- C4.  `summary_stats` performs no unguarded division by zero: on a table
with zero rows the missing percentage of every column is the float NaN —
pandas's explicit N/A marker, modelled by `none` — and on every table with
`total_rows > 0` it equals `round(missing / total_rows * 100, 2)` and lies
in `[0, 100]`. -/
theorem C4_missing_pct_guard (df : Df) (j : ℕ) :
    (df.rows.length = 0 → missing_pct df j = none) ∧
    (0 < df.rows.length →
      missing_pct df j =
        some (round2 ((missingCount df j : ℚ) / (df.rows.length : ℚ) * 100)) ∧
      ∀ q, missing_pct df j = some q → 0 ≤ q ∧ q ≤ 100) := by
  constructor
  · intro h
    simp [missing_pct, h]
  · intro h
    have hne : df.rows.length ≠ 0 := Nat.pos_iff_ne_zero.1 h
    refine ⟨by simp [missing_pct, hne], ?_⟩
    intro q hq
    rw [missing_pct, if_neg hne] at hq
    have hq' := (Option.some.inj hq).symm
    subst hq'
    have hnpos : (0 : ℚ) < (df.rows.length : ℚ) := by exact_mod_cast h
    have hmn : (missingCount df j : ℚ) ≤ (df.rows.length : ℚ) := by
      exact_mod_cast missingCount_le df j
    have hdiv0 : (0 : ℚ) ≤ (missingCount df j : ℚ) / (df.rows.length : ℚ) :=
      div_nonneg (by positivity) (le_of_lt hnpos)
    have hdiv1 : (missingCount df j : ℚ) / (df.rows.length : ℚ) ≤ 1 :=
      (div_le_one hnpos).2 hmn
    exact round2_bounds (by nlinarith) (by nlinarith)

/-- C4, witness: the theorem applied to an empty table and to a two-row
table with one missing cell. -/
theorem C4_witness :
    missing_pct ⟨["a"], []⟩ 0 = none ∧
    missing_pct ⟨["a"], [[Cell.missing], [Cell.num 1]]⟩ 0 =
      some (round2 ((missingCount ⟨["a"], [[Cell.missing], [Cell.num 1]]⟩ 0 : ℚ) /
        (((⟨["a"], [[Cell.missing], [Cell.num 1]]⟩ : Df).rows.length : ℚ)) * 100)) :=
  ⟨(C4_missing_pct_guard ⟨["a"], []⟩ 0).1 rfl,
   ((C4_missing_pct_guard ⟨["a"], [[Cell.missing], [Cell.num 1]]⟩ 0).2 (by decide)).1⟩

/-- C5.  For every loaded table and every finite sequence of cleaning
operations (imputation batches, duplicate removal, dropping missing rows —
reset steps in between are harmless too), invoking reset afterwards yields a
working table value-equal to the original snapshot captured at load time. -/
theorem C5_reset_restores_original (df : Df) (ops : List CleanOp) :
    (resetSession (runOps (initSession df) ops)).working = df ∧
    (resetSession (runOps (initSession df) ops)).original = df := by
  have h := original_runOps ops (initSession df)
  exact ⟨h, h⟩

/-- C6.  Every cleaning operation (imputation, duplicate removal, dropping
missing rows, reset) leaves the original snapshot value-unchanged;
re-uploading the same source name keeps the session, and only loading a
differently named source replaces it with a fresh one. -/
theorem C6_original_immutable (df df2 : Df) (ops : List CleanOp)
    (n m : String) (s : Session) :
    (runOps (initSession df) ops).original = df ∧
    loadUpload (some (n, s)) n df2 = (n, s) ∧
    (n ≠ m → loadUpload (some (n, s)) m df2 = (m, initSession df2)) := by
  refine ⟨original_runOps ops (initSession df), by simp [loadUpload], fun hnm => ?_⟩
  simp [loadUpload, hnm]

/-- C6, witness: the theorem applied to a concrete session, a concrete
operation sequence and two distinct file names. -/
theorem C6_witness :
    (runOps (initSession ⟨["a"], [[Cell.num 1]]⟩) [CleanOp.removeDup]).original =
      ⟨["a"], [[Cell.num 1]]⟩ ∧
    loadUpload (some ("f.csv", initSession ⟨["a"], [[Cell.num 1]]⟩)) "f.csv"
        ⟨["b"], []⟩ =
      ("f.csv", initSession ⟨["a"], [[Cell.num 1]]⟩) ∧
    loadUpload (some ("f.csv", initSession ⟨["a"], [[Cell.num 1]]⟩)) "g.csv"
        ⟨["b"], []⟩ =
      ("g.csv", initSession ⟨["b"], []⟩) := by
  obtain ⟨h1, h2, h3⟩ :=
    C6_original_immutable ⟨["a"], [[Cell.num 1]]⟩ ⟨["b"], []⟩ [CleanOp.removeDup]
      "f.csv" "g.csv" (initSession ⟨["a"], [[Cell.num 1]]⟩)
  exact ⟨h1, h2, h3 (by decide)⟩

/-- C7.  `removeDuplicateRows` keeps the first occurrence of each distinct
row and drops the later ones (it keeps exactly the rows not marked by the
keep-first duplicate mask), preserves the relative order of the kept rows
(the result is a sublist, and re-indexing is contiguous by construction),
keeps each distinct row exactly once and loses none, and reports
`removedCount = originalRowCount - newRowCount`; on the table
`[[1,"a"],[1,"a"],[2,"b"]]` it yields the two rows `[1,"a"]`, `[2,"b"]` with
`removedCount = 1`. -/
theorem C7_remove_duplicates_spec (df : Df) :
    ((removeDuplicateRows df).1.rows.Sublist df.rows ∧
     (removeDuplicateRows df).1.rows.Nodup ∧
     (∀ r : Row, r ∈ (removeDuplicateRows df).1.rows ↔ r ∈ df.rows) ∧
     (removeDuplicateRows df).1.rows =
       (df.rows.zip (duplicated df.rows)).filterMap
         (fun p => if p.2 then none else some p.1) ∧
     (removeDuplicateRows df).2 =
       df.rows.length - (removeDuplicateRows df).1.rows.length) ∧
    (removeDuplicateRows ⟨["x", "y"],
        [[Cell.num 1, Cell.str "a"], [Cell.num 1, Cell.str "a"],
         [Cell.num 2, Cell.str "b"]]⟩).1.rows =
      [[Cell.num 1, Cell.str "a"], [Cell.num 2, Cell.str "b"]] ∧
    (removeDuplicateRows ⟨["x", "y"],
        [[Cell.num 1, Cell.str "a"], [Cell.num 1, Cell.str "a"],
         [Cell.num 2, Cell.str "b"]]⟩).2 = 1 := by
  refine ⟨⟨sublist_dropDupAux df.rows [], nodup_dropDupAux df.rows [], ?_, ?_, rfl⟩,
    by decide, by decide⟩
  · intro r
    exact mem_drop_duplicates r df.rows
  · exact dropDupAux_eq_maskFilter df.rows []

/-- C8, counterexample.  The claim says the Boolean result of the imputation
pass is true exactly when at least one column changed value.  Applying
`numeric_constant` to a column with no missing cell changes nothing, yet the
code sets `changed = True` — the claim fails at this input. -/
theorem C8_counterexample :
    (df_apply_impute ⟨["a"], [[Cell.num 1]]⟩
        [("a", StratKind.numeric_constant, "")]).df = ⟨["a"], [[Cell.num 1]]⟩ ∧
    (df_apply_impute ⟨["a"], [[Cell.num 1]]⟩
        [("a", StratKind.numeric_constant, "")]).changed = true :=
  ⟨by decide, by decide⟩

/-- C8, amended.  The imputation pass leaves every column whose name is
absent from the strategy entries untouched, and (when every entry names an
existing column) its Boolean result is true exactly when at least one entry
was applied — equivalently, when fewer skip notices than entries were issued
— even if the applied fills changed no values. -/
theorem C8_amended_changed_iff_applied (df : Df) (specs : List SpecEntry)
    (hcols : ∀ e ∈ specs, e.1 ∈ df.names) :
    (∀ i : ℕ, (∀ e ∈ specs, df.names.getD i "" ≠ e.1) →
      getCol (df_apply_impute df specs).df i = getCol df i) ∧
    ((df_apply_impute df specs).changed = true ↔
      (df_apply_impute df specs).notices.length < specs.length) := by
  constructor
  · intro i hi
    exact getCol_foldl_impStep specs ⟨df, false, []⟩ i hi
  · obtain ⟨k, m, h1, h2, h3⟩ := impute_fold_count specs ⟨df, false, []⟩ hcols
    unfold df_apply_impute
    rw [h1, h3]
    simp only [List.length_nil, Bool.false_or, Nat.zero_add]
    constructor
    · intro hk
      have hk' : 0 < k := of_decide_eq_true hk
      omega
    · intro hm
      apply decide_eq_true
      omega

/-- C8, witness: the amended theorem applied to a two-column table with one
`mean` entry for column "a"; column "b" (index 1) is untouched and the
result is reported changed with no notice issued. -/
theorem C8_witness :
    getCol (df_apply_impute
        ⟨["a", "b"], [[Cell.num 1, Cell.str "x"], [Cell.missing, Cell.missing]]⟩
        [("a", StratKind.mean, "")]).df 1 =
      getCol ⟨["a", "b"], [[Cell.num 1, Cell.str "x"], [Cell.missing, Cell.missing]]⟩ 1 ∧
    ((df_apply_impute
        ⟨["a", "b"], [[Cell.num 1, Cell.str "x"], [Cell.missing, Cell.missing]]⟩
        [("a", StratKind.mean, "")]).changed = true ↔
      (df_apply_impute
        ⟨["a", "b"], [[Cell.num 1, Cell.str "x"], [Cell.missing, Cell.missing]]⟩
        [("a", StratKind.mean, "")]).notices.length < 1) := by
  obtain ⟨h1, h2⟩ := C8_amended_changed_iff_applied
    ⟨["a", "b"], [[Cell.num 1, Cell.str "x"], [Cell.missing, Cell.missing]]⟩
    [("a", StratKind.mean, "")] (by decide)
  exact ⟨h1 1 (by decide), h2⟩

/-- C9.  `removeDuplicateRows` is idempotent: applied to its own result it
returns the very same table and reports a removed count of `0`. -/
theorem C9_remove_duplicates_idempotent (df : Df) :
    removeDuplicateRows (removeDuplicateRows df).1 = ((removeDuplicateRows df).1, 0) := by
  unfold removeDuplicateRows
  simp [drop_duplicates_idem]

/-- C10.  When `mode` is applied to a column, the fill value is chosen
deterministically (the model is a pure function) as the least value among
those tied for the maximal occurrence count — the head of the ascending list
returned by pandas `Series.mode()` — and the filled column is
`fillna` of the column with that value. -/
theorem C10_mode_tiebreak (cells : List Cell) (param : String)
    (h : nonMissing cells ≠ []) :
    applyStrategy cells StratKind.mode param = (fillna cells (mode_fill cells), true) ∧
    mode_fill cells ∈ nonMissing cells ∧
    countCell (nonMissing cells) (mode_fill cells) = maxModeCount cells ∧
    ∀ w ∈ nonMissing cells,
      countCell (nonMissing cells) w = maxModeCount cells →
        cellLe (mode_fill cells) w = true := by
  obtain ⟨⟨hmem, hcnt⟩, hmin⟩ := mode_fill_spec cells h
  exact ⟨rfl, hmem, hcnt, hmin⟩

/-- C10, witness: the theorem applied to a numeric column whose values `1`
and `2` are tied (two occurrences each); the chosen fill is `1`, the
smallest tied value. -/
theorem C10_witness :
    applyStrategy [Cell.num 2, Cell.num 1, Cell.num 1, Cell.num 2, Cell.missing]
        StratKind.mode "" =
      (fillna [Cell.num 2, Cell.num 1, Cell.num 1, Cell.num 2, Cell.missing]
        (mode_fill [Cell.num 2, Cell.num 1, Cell.num 1, Cell.num 2, Cell.missing]),
       true) ∧
    cellLe (mode_fill [Cell.num 2, Cell.num 1, Cell.num 1, Cell.num 2, Cell.missing])
      (Cell.num 2) = true ∧
    mode_fill [Cell.num 2, Cell.num 1, Cell.num 1, Cell.num 2, Cell.missing] =
      Cell.num 1 := by
  obtain ⟨h1, _, _, h4⟩ := C10_mode_tiebreak
    [Cell.num 2, Cell.num 1, Cell.num 1, Cell.num 2, Cell.missing] "" (by decide)
  exact ⟨h1, h4 (Cell.num 2) (by decide) (by decide), by decide⟩

end DataCleaning
